import Mathlib

/-!
Shallow embedding of the `synesthetic_screen` core pipeline
(`src/note.rs`, `src/synesthetizer.rs`).

Modelling conventions:
* `f32`/`f64` arithmetic on pitches, amplitudes and frame-rate targets is
  embedded over `ℚ` (exact rationals); every finite float is a rational, and
  none of the verified claims hinges on rounding of these operations.
* Rust's half-open `std::ops::Range<f32>` becomes the structure `QRange`
  with fields `start` and `stop` (`end` is a Lean keyword).
* `Result<(), E>` on a `&mut self` method becomes a function returning
  `Except E Note` (error: state unchanged; ok: the updated note).
-/

namespace Synesthetic

/-- Rust `std::ops::Range<f32>` (field `end` renamed to `stop`). -/
structure QRange where
  start : ℚ
  stop : ℚ
  deriving DecidableEq, Repr

/-- Rust `Range::contains(&v)`: `start <= v && v < end` (half-open). -/
def QRange.containsQ (r : QRange) (v : ℚ) : Prop :=
  r.start ≤ v ∧ v < r.stop

instance (r : QRange) (v : ℚ) : Decidable (r.containsQ v) := by
  unfold QRange.containsQ; infer_instance

/-- Lower end of the set of values spanned by the (possibly inverted) range. -/
def QRange.lo (r : QRange) : ℚ := if r.start ≤ r.stop then r.start else r.stop

/-- Upper end of the set of values spanned by the (possibly inverted) range. -/
def QRange.hi (r : QRange) : ℚ := if r.start ≤ r.stop then r.stop else r.start

/-- Width of the interval spanned by the range. -/
def QRange.width (r : QRange) : ℚ := r.hi - r.lo

/-- `note.rs::dist_from_range_bounds`. -/
def dist_from_range_bounds (v : ℚ) (r : QRange) : ℚ :=
  if r.containsQ v then 0
  else if v > r.start then v - r.start
  else r.stop - v

/-- `note.rs::include_in_range` (mutation embedded as returning the new range). -/
def include_in_range (v : ℚ) (r : QRange) : QRange :=
  if r.containsQ v then r
  else if v > r.start then { r with start := v }
  else if v < r.stop then { r with stop := v }
  else r

/-- `note.rs::range_len`. -/
def range_len (r : QRange) : ℚ := r.stop - r.start

/-- `note.rs::Pitch` for the rational Note model (the `frequency ↔ midi`
conversion laws are transcendental and are treated separately over `ℝ`). -/
structure Pitch where
  frequency : ℚ
  midi : ℚ
  deriving DecidableEq, Repr

/-- `note.rs::SoundInclusionError`. -/
inductive SoundInclusionError where
  | mk
  deriving DecidableEq, Repr

/-- `note.rs::Note`. -/
structure Note where
  peak_pitch : Pitch
  peak_amplitude : ℚ
  amp_range : QRange
  midi_range : QRange
  deriving DecidableEq, Repr

/-- `Note::MAX_MIDI_RANGE`. -/
def MAX_MIDI_RANGE : ℚ := 1

/-- `Note::MAX_AMPLITUDE_RANGE`. -/
def MAX_AMPLITUDE_RANGE : ℚ := 1/4

/-- `Note::new`. -/
def Note.new (pitch : Pitch) (amplitude : ℚ) : Note where
  peak_pitch := pitch
  peak_amplitude := amplitude
  amp_range := ⟨amplitude, amplitude⟩
  midi_range := ⟨pitch.midi, pitch.midi⟩

/-- `Note::distance_from_midi`. -/
def Note.distance_from_midi (n : Note) (midi : ℚ) : ℚ :=
  dist_from_range_bounds midi n.midi_range

/-- `Note::try_include` (the `&mut self` update embedded as the `ok` payload;
on `Err` the Rust method leaves `self` untouched). -/
def Note.try_include (n : Note) (pitch : Pitch) (amplitude : ℚ) :
    Except SoundInclusionError Note :=
  if dist_from_range_bounds pitch.midi n.midi_range + range_len n.midi_range
        > MAX_MIDI_RANGE
      ∨ dist_from_range_bounds amplitude n.amp_range + range_len n.amp_range
        > MAX_AMPLITUDE_RANGE then
    .error .mk
  else
    let amp_range := include_in_range amplitude n.amp_range
    let midi_range := include_in_range pitch.midi n.midi_range
    if amplitude > n.peak_amplitude then
      .ok { peak_pitch := pitch, peak_amplitude := amplitude, amp_range, midi_range }
    else
      .ok { n with amp_range, midi_range }

/-- Distance from a value to a range as the specification words it:
0 inside the spanned interval, otherwise the gap to the nearer bound. -/
def specDist (v : ℚ) (r : QRange) : ℚ :=
  if v < r.lo then r.lo - v
  else if r.hi < v then v - r.hi
  else 0

/-- Concrete trace: the note after `Note::new(midi 5, amp 1/10)` absorbs
midi `29/5 = 5.8` at amplitude `1/10`. -/
def exNote1 : Note :=
  { peak_pitch := ⟨0, 5⟩
    peak_amplitude := 1/10
    amp_range := ⟨1/10, 1/10⟩
    midi_range := ⟨29/5, 5⟩ }

/-- Concrete trace: `exNote1` after it also absorbs midi `67/10 = 6.7`. -/
def exNote2 : Note :=
  { peak_pitch := ⟨0, 5⟩
    peak_amplitude := 1/10
    amp_range := ⟨1/10, 1/10⟩
    midi_range := ⟨67/10, 5⟩ }

/-- C1: the claimed invariant `width midi_range ≤ MAX_MIDI_RANGE = 1` is
violated by the code: starting from `Note::new(midi 5, amp 1/10)`, the calls
`try_include(midi 5.8)` and `try_include(midi 6.7)` both return `Ok`, leaving
`midi_range` spanning `[5, 6.7]`, of width `17/10 > 1`.  The cause:
`include_in_range` stores `start = max`, `end = min`, so `range_len` is the
negated width and `Range::contains` never holds. -/
theorem c1_midi_width_exceeds_max :
    (Note.new ⟨0, 5⟩ (1/10)).try_include ⟨0, 29/5⟩ (1/10) = .ok exNote1 ∧
    exNote1.try_include ⟨0, 67/10⟩ (1/10) = .ok exNote2 ∧
    exNote2.midi_range.width = 17/10 ∧ MAX_MIDI_RANGE < exNote2.midi_range.width := by
  refine ⟨?_, ?_, ?_, ?_⟩ <;>
    norm_num [Note.new, Note.try_include, dist_from_range_bounds, include_in_range,
      range_len, QRange.containsQ, QRange.width, QRange.lo, QRange.hi,
      MAX_MIDI_RANGE, MAX_AMPLITUDE_RANGE, exNote1, exNote2]

/-- C3: the claimed rejection predicate (`specDist + width > 1` must give
`Err`) disagrees with the code: at `exNote1` (spanning `[5, 5.8]`) and incoming
midi `6.7`, gap `9/10` plus width `4/5` is `17/10 > 1`, yet `try_include`
returns `Ok`, because the code's `dist_from_range_bounds … + range_len …`
evaluates to gap minus width. -/
theorem c3_rejection_predicate_mismatch :
    MAX_MIDI_RANGE
      < specDist (67/10) exNote1.midi_range + exNote1.midi_range.width ∧
    exNote1.try_include ⟨0, 67/10⟩ (1/10) = .ok exNote2 := by
  constructor <;>
    norm_num [Note.try_include, dist_from_range_bounds, include_in_range,
      range_len, QRange.containsQ, QRange.width, QRange.lo, QRange.hi, specDist,
      MAX_MIDI_RANGE, MAX_AMPLITUDE_RANGE, exNote1, exNote2]

/-- On ranges stored the way this program builds them (`stop ≤ start`, i.e.
`start` tracks the maximum and `stop` the minimum), `include_in_range` moves
`start` up to the new value when needed. -/
lemma include_in_range_start (v : ℚ) (r : QRange) (h : r.stop ≤ r.start) :
    (include_in_range v r).start = if r.start < v then v else r.start := by
  unfold include_in_range QRange.containsQ
  split_ifs <;> first | rfl | linarith

/-- Counterpart of `include_in_range_start` for the minimum-tracking bound. -/
lemma include_in_range_stop (v : ℚ) (r : QRange) (h : r.stop ≤ r.start) :
    (include_in_range v r).stop = if v < r.stop then v else r.stop := by
  unfold include_in_range QRange.containsQ
  split_ifs <;> first | rfl | linarith

lemma include_in_range_lo (v : ℚ) (r : QRange) (h : r.stop ≤ r.start) :
    (include_in_range v r).lo = if v < r.lo then v else r.lo := by
  unfold QRange.lo
  rw [include_in_range_start v r h, include_in_range_stop v r h]
  split_ifs <;> linarith

lemma include_in_range_hi (v : ℚ) (r : QRange) (h : r.stop ≤ r.start) :
    (include_in_range v r).hi = if r.hi < v then v else r.hi := by
  unfold QRange.hi
  rw [include_in_range_start v r h, include_in_range_stop v r h]
  split_ifs <;> linarith

/-- C2: when `Note::try_include` accepts, each range is extended minimally to
the convex hull of the old range and the new value — so a value outside the
spanned interval moves only the bound on its side (which, the interval bounds
being ordered, is the nearer one) and leaves the other bound unchanged — and
the peak pitch/amplitude are replaced exactly when the new amplitude exceeds
the current peak.  The orientation hypotheses (`stop ≤ start`) hold for every
note this program constructs (`Note::new` makes both bounds equal, and
`include_in_range` only raises `start` or lowers `stop`). -/
theorem c2_try_include_ok_extends_minimally
    (n n' : Note) (p : Pitch) (a : ℚ)
    (hm : n.midi_range.stop ≤ n.midi_range.start)
    (ha : n.amp_range.stop ≤ n.amp_range.start)
    (h : n.try_include p a = .ok n') :
    n'.midi_range.lo = (if p.midi < n.midi_range.lo then p.midi else n.midi_range.lo) ∧
    n'.midi_range.hi = (if n.midi_range.hi < p.midi then p.midi else n.midi_range.hi) ∧
    n'.amp_range.lo = (if a < n.amp_range.lo then a else n.amp_range.lo) ∧
    n'.amp_range.hi = (if n.amp_range.hi < a then a else n.amp_range.hi) ∧
    n'.peak_amplitude = (if n.peak_amplitude < a then a else n.peak_amplitude) ∧
    n'.peak_pitch = (if n.peak_amplitude < a then p else n.peak_pitch) := by
  unfold Note.try_include at h
  split_ifs at h with hrej hpk
  all_goals simp only [Except.ok.injEq, reduceCtorEq] at h
  all_goals subst h
  all_goals
    refine ⟨include_in_range_lo _ _ hm, include_in_range_hi _ _ hm,
      include_in_range_lo _ _ ha, include_in_range_hi _ _ ha, ?_, ?_⟩ <;>
      simp only [gt_iff_lt] at hpk ⊢ <;>
      first
        | rw [if_pos hpk]
        | rw [if_neg hpk]

/-- Witness for `c2_try_include_ok_extends_minimally` at the concrete first
step of the trace above: absorbing midi `29/5`, amplitude `1/10` into
`Note::new(midi 5, amp 1/10)`. -/
theorem c2_try_include_ok_extends_minimally_witness :
    exNote1.midi_range.lo
      = (if (29/5 : ℚ) < (Note.new ⟨0, 5⟩ (1/10)).midi_range.lo
          then (29/5 : ℚ) else (Note.new ⟨0, 5⟩ (1/10)).midi_range.lo) ∧
    exNote1.midi_range.hi
      = (if (Note.new ⟨0, 5⟩ (1/10)).midi_range.hi < (29/5 : ℚ)
          then (29/5 : ℚ) else (Note.new ⟨0, 5⟩ (1/10)).midi_range.hi) := by
  have hmain := c2_try_include_ok_extends_minimally
    (Note.new ⟨0, 5⟩ (1/10)) exNote1 ⟨0, 29/5⟩ (1/10)
    (by norm_num [Note.new])
    (by norm_num [Note.new])
    (by norm_num [Note.new, Note.try_include, dist_from_range_bounds,
      include_in_range, range_len, QRange.containsQ, MAX_MIDI_RANGE,
      MAX_AMPLITUDE_RANGE, exNote1])
  exact ⟨hmain.1, hmain.2.1⟩

/-! ## Tone clusterer (`synesthetizer.rs::Synesthetizer::find_tones`) -/

/-- Rust `Iterator::min_by` over the notes list (with `total_cmp` on a `ℚ`
key): returns the first element attaining the minimal key, paired with its
index.  Rust's left fold keeps the current best unless the next element is
strictly smaller; this index-tracking recursion picks the same element, which
`rustMinBy_spec` pins down uniquely (first index attaining the minimum). -/
def rustMinBy (f : Note → ℚ) : List Note → Option (ℕ × Note)
  | [] => none
  | x :: xs =>
    match rustMinBy f xs with
    | none => some (0, x)
    | some (j, y) => if f x ≤ f y then some (0, x) else some (j + 1, y)

lemma rustMinBy_eq_none_iff (f : Note → ℚ) (l : List Note) :
    rustMinBy f l = none ↔ l = [] := by
  cases l with
  | nil => simp [rustMinBy]
  | cons x xs =>
    simp only [rustMinBy]
    cases rustMinBy f xs with
    | none => simp
    | some p => rcases p with ⟨j, y⟩; by_cases h : f x ≤ f y <;> simp [h]

lemma rustMinBy_spec (f : Note → ℚ) (l : List Note) (j : ℕ) (y : Note)
    (h : rustMinBy f l = some (j, y)) :
    l.get? j = some y ∧
    (∀ i z, l.get? i = some z → f y ≤ f z) ∧
    (∀ i z, i < j → l.get? i = some z → f y < f z) := by
  induction l generalizing j y with
  | nil => simp [rustMinBy] at h
  | cons x xs ih =>
    simp only [rustMinBy] at h
    split at h
    next hx =>
      obtain rfl : xs = [] := (rustMinBy_eq_none_iff f xs).mp hx
      simp only [Option.some.injEq, Prod.mk.injEq] at h
      obtain ⟨rfl, rfl⟩ := h
      refine ⟨rfl, ?_, ?_⟩
      · intro i z hz
        cases i with
        | zero => simp at hz; subst hz; exact le_refl _
        | succ i => simp at hz
      · intro i z hi
        omega
    next j0 y0 hx =>
      obtain ⟨hget, hmin, hfirst⟩ := ih j0 y0 hx
      by_cases hle : f x ≤ f y0
      · rw [if_pos hle] at h
        simp only [Option.some.injEq, Prod.mk.injEq] at h
        obtain ⟨rfl, rfl⟩ := h
        refine ⟨rfl, ?_, ?_⟩
        · intro i z hz
          cases i with
          | zero => simp at hz; subst hz; exact le_refl _
          | succ i => exact le_trans hle (hmin i z (by simpa using hz))
        · intro i z hi
          omega
      · rw [if_neg hle] at h
        push_neg at hle
        simp only [Option.some.injEq, Prod.mk.injEq] at h
        obtain ⟨rfl, rfl⟩ := h
        refine ⟨by simpa using hget, ?_, ?_⟩
        · intro i z hz
          cases i with
          | zero => simp at hz; subst hz; exact le_of_lt hle
          | succ i => exact hmin i z (by simpa using hz)
        · intro i z hi hz
          cases i with
          | zero => simp at hz; subst hz; exact hle
          | succ i => exact hfirst i z (by omega) (by simpa using hz)

/-- One iteration of the `for (fr, amp) in spectrum.data()` loop in
`find_tones`: the bin (already converted to a `Pitch`) is offered to the
closest existing note (in-place mutation embedded as `List.set`), and a fresh
note is pushed when there is none or inclusion is rejected. -/
def findTonesStep (notes : List Note) (pitch : Pitch) (amplitude : ℚ) :
    List Note :=
  match rustMinBy (fun n => n.distance_from_midi pitch.midi) notes with
  | some (j, closest) =>
    match closest.try_include pitch amplitude with
    | .ok n' => notes.set j n'
    | .error _ => notes ++ [Note.new pitch amplitude]
  | none => notes ++ [Note.new pitch amplitude]

/-- `Synesthetizer::find_tones`: clear the notes, process the spectrum bins in
order, then `sort_by(total_cmp)` on peak amplitude (a stable merge sort).
Bins are modelled after the `Pitch::from_frequency` conversion. -/
def find_tones (bins : List (Pitch × ℚ)) : List Note :=
  (bins.foldl (fun notes b => findTonesStep notes b.1 b.2) []).mergeSort
    (fun a b => decide (a.peak_amplitude ≤ b.peak_amplitude))

/-- C5: each spectral bin is offered via `try_include` to the existing note
minimising `distance_from_midi` of the bin's midi value, first-encountered
note winning ties (every strictly earlier note has strictly larger distance),
and a new note is started exactly when no note exists yet or that
`try_include` is rejected. -/
theorem c5_find_tones_step_greedy (notes : List Note) (p : Pitch) (a : ℚ) :
    (rustMinBy (fun n => n.distance_from_midi p.midi) notes = none →
      notes = [] ∧ findTonesStep notes p a = notes ++ [Note.new p a]) ∧
    (∀ j closest,
      rustMinBy (fun n => n.distance_from_midi p.midi) notes = some (j, closest) →
      notes.get? j = some closest ∧
      (∀ i m, notes.get? i = some m →
        closest.distance_from_midi p.midi ≤ m.distance_from_midi p.midi) ∧
      (∀ i m, i < j → notes.get? i = some m →
        closest.distance_from_midi p.midi < m.distance_from_midi p.midi) ∧
      (∀ n', closest.try_include p a = .ok n' →
        findTonesStep notes p a = notes.set j n') ∧
      (∀ e, closest.try_include p a = .error e →
        findTonesStep notes p a = notes ++ [Note.new p a])) := by
  constructor
  · intro hnone
    refine ⟨(rustMinBy_eq_none_iff _ notes).mp hnone, ?_⟩
    simp only [findTonesStep, hnone]
  · intro j closest hsome
    obtain ⟨hget, hmin, hfirst⟩ := rustMinBy_spec _ notes j closest hsome
    refine ⟨hget, hmin, hfirst, ?_, ?_⟩
    · intro n' hok
      simp only [findTonesStep, hsome, hok]
    · intro e herr
      simp only [findTonesStep, hsome, herr]

/-- Witness for `c5_find_tones_step_greedy`: with two notes at midi 5 and
midi 7, the bin at midi `69/10` is offered to the second note (distance
`1/10` against `19/10`) and accepted, so the step rewrites index 1. -/
theorem c5_find_tones_step_greedy_witness :
    [Note.new ⟨0, 5⟩ (1/10), Note.new ⟨0, 7⟩ (1/10)].get? 1
      = some (Note.new ⟨0, 7⟩ (1/10)) ∧
    findTonesStep [Note.new ⟨0, 5⟩ (1/10), Note.new ⟨0, 7⟩ (1/10)] ⟨0, 69/10⟩ (1/10)
      = [Note.new ⟨0, 5⟩ (1/10), Note.new ⟨0, 7⟩ (1/10)].set 1
          { peak_pitch := ⟨0, 7⟩
            peak_amplitude := 1/10
            amp_range := ⟨1/10, 1/10⟩
            midi_range := ⟨7, 69/10⟩ } := by
  have hmain := (c5_find_tones_step_greedy
    [Note.new ⟨0, 5⟩ (1/10), Note.new ⟨0, 7⟩ (1/10)] ⟨0, 69/10⟩ (1/10)).2
    1 (Note.new ⟨0, 7⟩ (1/10))
    (by norm_num [rustMinBy, Note.new, Note.distance_from_midi,
      dist_from_range_bounds, QRange.containsQ])
  refine ⟨hmain.1, hmain.2.2.2.1 _ ?_⟩
  norm_num [Note.new, Note.try_include, dist_from_range_bounds,
    include_in_range, range_len, QRange.containsQ,
    MAX_MIDI_RANGE, MAX_AMPLITUDE_RANGE]

/-- C9: after `find_tones` processes all bins of a tick, the note list is
sorted ascending by peak amplitude (`sort_by` with `total_cmp`), so the
compositor loop in `new_frame`, iterating in list order, draws louder notes
later and therefore on top. -/
theorem c9_find_tones_sorted (bins : List (Pitch × ℚ)) :
    List.Sorted (fun a b : Note => a.peak_amplitude ≤ b.peak_amplitude)
      (find_tones bins) := by
  unfold find_tones
  refine List.Pairwise.imp ?_ (List.sorted_mergeSort ?_ ?_ _)
  · intro a b hb
    exact of_decide_eq_true hb
  · intro a b c hab hbc
    exact decide_eq_true
      (le_trans (of_decide_eq_true hab) (of_decide_eq_true hbc))
  · intro a b
    rcases le_total a.peak_amplitude b.peak_amplitude with h | h <;> simp [h]

/-! ## Frame sampler window size (`synesthetizer.rs::Synesthetizer::load_music`) -/

/-- The guard of the `loop` in `load_music`: doubling `samples_per_frame`
brings the frame rate `sample_rate / samples_per_frame` strictly closer to the
12 Hz target (`times_2_diff < current_diff`). -/
def fpsImproves (rate n : ℕ) : Prop :=
  |(rate : ℚ) / (2 * n) - 12| < |(rate : ℚ) / n - 12|

instance (rate n : ℕ) : Decidable (fpsImproves rate n) := by
  unfold fpsImproves; infer_instance

lemma fpsImproves_pos (rate n : ℕ) (h : fpsImproves rate n) : 0 < n := by
  by_contra h0
  push_neg at h0
  obtain rfl : n = 0 := by omega
  norm_num [fpsImproves] at h

lemma fpsImproves_lt (rate n : ℕ) (h : fpsImproves rate n) : 12 * n < rate := by
  have hn := fpsImproves_pos rate n h
  by_contra hle
  push_neg at hle
  unfold fpsImproves at h
  have hnq : (0 : ℚ) < n := by exact_mod_cast hn
  have hq : (rate : ℚ) ≤ 12 * n := by exact_mod_cast hle
  have h1 : (rate : ℚ) / n ≤ 12 := by
    rw [div_le_iff₀ hnq]; linarith
  have h2 : (rate : ℚ) / (2 * n) ≤ (rate : ℚ) / n := by
    apply div_le_div_of_nonneg_left (by positivity) hnq
    linarith
  rw [abs_of_nonpos (by linarith), abs_of_nonpos (by linarith)] at h
  linarith

/-- The `loop` in `load_music`: keep doubling `samples_per_frame` while that
improves the frame-rate distance to 12 Hz; stop at the first non-improving
doubling.  (The Rust loop terminates because the guard forces `12 * n <
rate`.) -/
def spfLoop (rate n : ℕ) : ℕ :=
  if h : fpsImproves rate n then spfLoop rate (2 * n) else n
termination_by rate - n
decreasing_by
  have h1 := fpsImproves_pos rate n h
  have h2 := fpsImproves_lt rate n h
  omega

lemma spfLoop_eq (rate n : ℕ) :
    spfLoop rate n = if fpsImproves rate n then spfLoop rate (2 * n) else n := by
  rw [spfLoop]
  exact dite_eq_ite ..

/-- `load_music`'s choice of `samples_per_frame`: the doubling loop started
at 2. -/
def load_music_samples_per_frame (rate : ℕ) : ℕ := spfLoop rate 2

theorem spfLoop_pow_two (rate n : ℕ) (h : ∃ k, n = 2 ^ k) :
    ∃ k, spfLoop rate n = 2 ^ k := by
  rw [spfLoop_eq]
  split_ifs with himp
  · obtain ⟨k, rfl⟩ := h
    exact spfLoop_pow_two rate (2 * 2 ^ k) ⟨k + 1, by ring⟩
  · exact h
termination_by rate - n
decreasing_by
  have h1 := fpsImproves_pos rate (2 ^ k) himp
  have h2 := fpsImproves_lt rate (2 ^ k) himp
  omega

/-- C6: the chosen `samples_per_frame` is always a power of two (the loop
starts at 2 and only doubles, stopping at the first non-improving doubling),
and at a 44100 Hz sample rate it settles at 4096. -/
theorem c6_samples_per_frame_choice :
    (∀ rate : ℕ, ∃ k, load_music_samples_per_frame rate = 2 ^ k) ∧
    load_music_samples_per_frame 44100 = 4096 := by
  constructor
  · intro rate
    exact spfLoop_pow_two rate 2 ⟨1, rfl⟩
  · unfold load_music_samples_per_frame
    rw [spfLoop_eq, if_pos (by norm_num [fpsImproves, abs_of_nonneg, abs_of_nonpos]),
      spfLoop_eq, if_pos (by norm_num [fpsImproves, abs_of_nonneg, abs_of_nonpos]),
      spfLoop_eq, if_pos (by norm_num [fpsImproves, abs_of_nonneg, abs_of_nonpos]),
      spfLoop_eq, if_pos (by norm_num [fpsImproves, abs_of_nonneg, abs_of_nonpos]),
      spfLoop_eq, if_pos (by norm_num [fpsImproves, abs_of_nonneg, abs_of_nonpos]),
      spfLoop_eq, if_pos (by norm_num [fpsImproves, abs_of_nonneg, abs_of_nonpos]),
      spfLoop_eq, if_pos (by norm_num [fpsImproves, abs_of_nonneg, abs_of_nonpos]),
      spfLoop_eq, if_pos (by norm_num [fpsImproves, abs_of_nonneg, abs_of_nonpos]),
      spfLoop_eq, if_pos (by norm_num [fpsImproves, abs_of_nonneg, abs_of_nonpos]),
      spfLoop_eq, if_pos (by norm_num [fpsImproves, abs_of_nonneg, abs_of_nonpos]),
      spfLoop_eq, if_pos (by norm_num [fpsImproves, abs_of_nonneg, abs_of_nonpos]),
      spfLoop_eq, if_neg (by norm_num [fpsImproves, abs_of_nonneg, abs_of_nonpos])]

/-! ## Pitch conversion laws (`note.rs::Pitch`), over `ℝ`

The `frequency ↔ midi` conversions use `log2` and `powf`; they are embedded
over the real numbers (the idealised float semantics), where the spec's
"within float tolerance" round trip is exact. -/

/-- `note.rs::Pitch`, real-valued. -/
structure PitchR where
  frequency : ℝ
  midi : ℝ

/-- `Pitch::from_frequency`: `midi = 12 * log2(frequency / 440) + 69`. -/
noncomputable def PitchR.from_frequency (fr : ℝ) : PitchR :=
  ⟨fr, 12 * Real.logb 2 (fr / 440) + 69⟩

/-- `Pitch::from_midi`: `frequency = 2^((midi - 69) / 12) * 440`. -/
noncomputable def PitchR.from_midi (midi : ℝ) : PitchR :=
  ⟨(2 : ℝ) ^ ((midi - 69) / 12) * 440, midi⟩

/-- C8: for every frequency `f > 0`,
`Pitch::from_midi(Pitch::from_frequency(f).midi()).frequency()` is exactly `f`
(over the idealised reals; the float implementation matches within
tolerance). -/
theorem c8_pitch_round_trip (f : ℝ) (hf : 0 < f) :
    (PitchR.from_midi ((PitchR.from_frequency f).midi)).frequency = f := by
  unfold PitchR.from_frequency PitchR.from_midi
  simp only
  have h4 : (0 : ℝ) < f / 440 := by positivity
  rw [show (12 * Real.logb 2 (f / 440) + 69 - 69) / 12 = Real.logb 2 (f / 440) by
    ring]
  rw [Real.rpow_logb (by norm_num) (by norm_num) h4]
  field_simp

/-- Witness for `c8_pitch_round_trip` at `f = 440` (concert A). -/
theorem c8_pitch_round_trip_witness :
    (0 : ℝ) < 440 ∧
    (PitchR.from_midi ((PitchR.from_frequency 440).midi)).frequency = 440 :=
  ⟨by norm_num, c8_pitch_round_trip 440 (by norm_num)⟩

/-! ## Compositor / frame store (`synesthetizer.rs::Synesthetizer`)

The external `image` crate raster is modelled freely: an `Image` is the
canvas-building history (blank canvas, or a note painted over a base canvas);
`RgbaImage::clone` is plain equality of values.  `PathBuf` is modelled as an
opaque token (`ℕ`).  The two external fallible operations of `new_frame` —
`samples_fft_to_spectrum` (with the spectrum's bins already converted to
pitches) and `image::save_buffer` — enter as `Except` parameters; both are
`.unwrap()`ed by the source, which the embedding records as an explicit panic
outcome `Except.error (kind)`. -/

/-- Free model of the 1600×900 RGBA raster under the operations `new_frame`
performs on it: fresh transparent canvas, and painting one note glyph. -/
inductive Image where
  | blank : Image
  | paint (n : Note) (base : Image) : Image
  deriving DecidableEq, Repr

/-- The `for note in &self.current_notes { note.paint(&mut image, …) }` loop. -/
def paintAll (notes : List Note) (img : Image) : Image :=
  notes.foldl (fun im n => Image.paint n im) img

/-- A panic (`unwrap` on `Err`) escaping `Synesthetizer::new_frame`. -/
inductive PanicKind where
  | fftUnwrap
  | saveUnwrap
  deriving DecidableEq, Repr

/-- `app.rs::MusicState`, reduced to what `new_frame` inspects: loaded or not,
and `Music::is_stopped`. -/
inductive MusicState where
  | notLoaded
  | loaded (stopped : Bool)
  deriving DecidableEq, Repr

/-- `Synesthetizer` state (the palette, an immutable startup resource, and the
scratch sample buffer, which no modelled claim reads, are omitted). -/
structure Synesthetizer where
  samples_per_frame : ℕ
  current_notes : List Note
  previous_image : Image
  is_overlay : Bool
  snapshot_request : Option ℕ
  deriving DecidableEq, Repr

/-- `Synesthetizer::clear_overlay`: replace the persisted buffer by a fresh
transparent canvas. -/
def clear_overlay (st : Synesthetizer) : Synesthetizer :=
  { st with previous_image := Image.blank }

/-- Lines 92–99 of `new_frame`: reconcile `self.is_overlay` with the settings
flag, discarding the persisted buffer when overlay turns off. -/
def syncOverlay (st : Synesthetizer) (settingsOverlay : Bool) : Synesthetizer :=
  if settingsOverlay ≠ st.is_overlay then
    if settingsOverlay = false then
      clear_overlay { st with is_overlay := settingsOverlay }
    else
      { st with is_overlay := settingsOverlay }
  else st

/-- Lines 101–105 of `new_frame`: the canvas a tick starts from — a copy of
the persisted buffer in overlay mode, else a fresh transparent canvas. -/
def startCanvas (st : Synesthetizer) : Image :=
  if st.is_overlay then st.previous_image else Image.blank

/-- Lines 125–127 of `new_frame`: in overlay mode the finished canvas becomes
the persisted buffer. -/
def persistOverlay (st : Synesthetizer) (image : Image) : Synesthetizer :=
  if st.is_overlay then { st with previous_image := image } else st

/-- Lines 125–145 of `new_frame`: persist the overlay buffer, then serve a
pending snapshot request — `image::save_buffer(…).unwrap()` panics on a write
failure (so the pending request survives), and only a successful write clears
the request — then hand the canvas back. -/
def newFrameFinish (st : Synesthetizer) (image : Image)
    (save : Except Unit Unit) : Except PanicKind (Synesthetizer × Image) :=
  match (persistOverlay st image).snapshot_request with
  | some _ =>
    match save with
    | .error _ => .error .saveUnwrap
    | .ok _ => .ok ({ persistOverlay st image with snapshot_request := none }, image)
  | none => .ok (persistOverlay st image, image)

/-- `Synesthetizer::new_frame`, one tick: reconcile the overlay flag, pick the
starting canvas, run the spectral pipeline when music is playing
(`samples_fft_to_spectrum(…).unwrap()` panics on a transform error), paint the
clustered notes, then persist/snapshot/return. -/
def new_frame (st : Synesthetizer) (settingsOverlay : Bool) (music : MusicState)
    (fft : Except Unit (List (Pitch × ℚ))) (save : Except Unit Unit) :
    Except PanicKind (Synesthetizer × Image) :=
  let st1 := syncOverlay st settingsOverlay
  let image := startCanvas st1
  match music with
  | .loaded false =>
    match fft with
    | .error _ => .error .fftUnwrap
    | .ok bins =>
      let st2 := { st1 with current_notes := find_tones bins }
      newFrameFinish st2 (paintAll st2.current_notes image) save
  | _ => newFrameFinish st1 image save

lemma persistOverlay_is_overlay (st : Synesthetizer) (image : Image) :
    (persistOverlay st image).is_overlay = st.is_overlay := by
  unfold persistOverlay; split <;> rfl

lemma persistOverlay_snapshot_request (st : Synesthetizer) (image : Image) :
    (persistOverlay st image).snapshot_request = st.snapshot_request := by
  unfold persistOverlay; split <;> rfl

lemma persistOverlay_previous_image (st : Synesthetizer) (image : Image) :
    (persistOverlay st image).previous_image =
      if st.is_overlay then image else st.previous_image := by
  unfold persistOverlay; split <;> rfl

lemma newFrameFinish_ok (st : Synesthetizer) (image : Image)
    (save : Except Unit Unit) (st' : Synesthetizer) (out : Image)
    (h : newFrameFinish st image save = .ok (st', out)) :
    out = image ∧ st'.is_overlay = st.is_overlay ∧
    st'.previous_image = (if st.is_overlay then image else st.previous_image) := by
  unfold newFrameFinish at h
  split at h
  · split at h
    · exact absurd h (by simp)
    · simp only [Except.ok.injEq, Prod.mk.injEq] at h
      obtain ⟨h1, h2⟩ := h
      subst h1; subst h2
      simp [persistOverlay_is_overlay, persistOverlay_previous_image]
  · simp only [Except.ok.injEq, Prod.mk.injEq] at h
    obtain ⟨h1, h2⟩ := h
    subst h1; subst h2
    simp [persistOverlay_is_overlay, persistOverlay_previous_image]

lemma syncOverlay_is_overlay (st : Synesthetizer) (flag : Bool) :
    (syncOverlay st flag).is_overlay = flag := by
  unfold syncOverlay clear_overlay
  split_ifs with h1 h2
  · rfl
  · rfl
  · exact (not_ne_iff.mp h1).symm

lemma syncOverlay_self (st : Synesthetizer) (flag : Bool)
    (h : st.is_overlay = flag) : syncOverlay st flag = st := by
  unfold syncOverlay
  rw [h]
  simp

lemma syncOverlay_off_previous (st : Synesthetizer) (h : st.is_overlay = true) :
    (syncOverlay st false).previous_image = Image.blank := by
  unfold syncOverlay clear_overlay
  rw [h]
  simp

lemma finish_overlay_roundtrip (st1 : Synesthetizer) (img : Image)
    (save : Except Unit Unit) (st' : Synesthetizer) (out : Image)
    (hov : st1.is_overlay = true)
    (h : newFrameFinish st1 img save = .ok (st', out)) :
    startCanvas (syncOverlay st' true) = out := by
  obtain ⟨ho, hia, hprev⟩ := newFrameFinish_ok st1 img save st' out h
  have hov' : st'.is_overlay = true := by rw [hia, hov]
  rw [syncOverlay_self st' true hov']
  subst ho
  rw [hov] at hprev
  simp only [if_true] at hprev
  simp [startCanvas, hov', hprev]

lemma startCanvas_after_blank (st' : Synesthetizer) (hov : st'.is_overlay = false)
    (hprev : st'.previous_image = Image.blank) (b : Bool) :
    startCanvas (syncOverlay st' b) = Image.blank := by
  cases b
  · simp [syncOverlay, startCanvas, clear_overlay, hov]
  · simp [syncOverlay, startCanvas, clear_overlay, hov, hprev]

/-- C7: (1) with overlay on for two consecutive ticks, the canvas tick N+1
starts from (`startCanvas` after the flag sync, before any note is drawn)
is exactly tick N's output canvas; (2) when the overlay setting transitions
from on to off, the tick observing the transition discards the persisted
buffer, so the next tick — whatever its overlay flag, in particular after
overlay is toggled back on — starts from a blank, fully transparent canvas. -/
theorem c7_overlay_start_canvas (st : Synesthetizer) (music : MusicState)
    (fft : Except Unit (List (Pitch × ℚ))) (save : Except Unit Unit)
    (st' : Synesthetizer) (out : Image) :
    (new_frame st true music fft save = .ok (st', out) →
      startCanvas (syncOverlay st' true) = out) ∧
    (st.is_overlay = true →
      new_frame st false music fft save = .ok (st', out) →
      st'.previous_image = Image.blank ∧
      ∀ b, startCanvas (syncOverlay st' b) = Image.blank) := by
  constructor
  · intro h
    cases music with
    | notLoaded =>
      simp only [new_frame] at h
      exact finish_overlay_roundtrip _ _ _ _ _ (syncOverlay_is_overlay st true) h
    | loaded stopped =>
      cases stopped with
      | true =>
        simp only [new_frame] at h
        exact finish_overlay_roundtrip _ _ _ _ _ (syncOverlay_is_overlay st true) h
      | false =>
        cases fft with
        | error e => simp [new_frame] at h
        | ok bins =>
          simp only [new_frame] at h
          refine finish_overlay_roundtrip _ _ _ _ _ ?_ h
          simpa using syncOverlay_is_overlay st true
  · intro hov h
    have hsv : (syncOverlay st false).is_overlay = false :=
      syncOverlay_is_overlay st false
    have hsp : (syncOverlay st false).previous_image = Image.blank :=
      syncOverlay_off_previous st hov
    have key : st'.previous_image = Image.blank ∧ st'.is_overlay = false := by
      cases music with
      | notLoaded =>
        simp only [new_frame] at h
        obtain ⟨ho, hia, hprev⟩ := newFrameFinish_ok _ _ _ _ _ h
        rw [hsv] at hia hprev
        simp only [Bool.false_eq_true, if_false] at hprev
        exact ⟨hprev.trans hsp, hia⟩
      | loaded stopped =>
        cases stopped with
        | true =>
          simp only [new_frame] at h
          obtain ⟨ho, hia, hprev⟩ := newFrameFinish_ok _ _ _ _ _ h
          rw [hsv] at hia hprev
          simp only [Bool.false_eq_true, if_false] at hprev
          exact ⟨hprev.trans hsp, hia⟩
        | false =>
          cases fft with
          | error e => simp [new_frame] at h
          | ok bins =>
            simp only [new_frame] at h
            obtain ⟨ho, hia, hprev⟩ := newFrameFinish_ok _ _ _ _ _ h
            simp only [hsv] at hia hprev
            simp only [Bool.false_eq_true, if_false] at hprev
            exact ⟨hprev.trans hsp, hia⟩
    exact ⟨key.1, startCanvas_after_blank st' key.2 key.1⟩

/-- Witness for `c7_overlay_start_canvas`: an overlay tick with no music on a
state whose persisted buffer is blank hands back the blank canvas, and the
next tick's starting canvas is that same output. -/
theorem c7_overlay_start_canvas_witness :
    startCanvas
      (syncOverlay ⟨0, [], Image.blank, true, none⟩ true) = Image.blank := by
  have hmain := (c7_overlay_start_canvas ⟨0, [], Image.blank, true, none⟩
    MusicState.notLoaded (.ok []) (.ok ())
    ⟨0, [], Image.blank, true, none⟩ Image.blank).1 rfl
  exact hmain

/-- C4, counterexample: the claim says internal transform errors and snapshot
write failures are surfaced as explicit results (the tick skipped, the pending
request cleared regardless).  In fact both paths `.unwrap()` and panic: with
music playing, a spectral-transform error crashes the tick
(`PanicKind.fftUnwrap`), and with a snapshot pending, a write failure crashes
(`PanicKind.saveUnwrap`) with the pending request never cleared — the panic
aborts before `self.snapshot_request = None` runs. -/
theorem c4_new_frame_panics :
    new_frame ⟨0, [], Image.blank, false, none⟩ false (.loaded false)
        (.error ()) (.ok ()) = .error .fftUnwrap ∧
    new_frame ⟨0, [], Image.blank, false, some 0⟩ false .notLoaded
        (.ok []) (.error ()) = .error .saveUnwrap := by
  constructor <;> rfl

/-- C4, amended: `new_frame` panics (rather than returning an explicit error)
on an internal spectral-transform failure, and panics on a snapshot write
failure whenever a request is pending — so the request is cleared only by a
successful write; every tick that completes without panicking ends with no
pending snapshot request. -/
theorem c4_amended_unwrap_behavior (st : Synesthetizer) (flag : Bool)
    (music : MusicState) (fft : Except Unit (List (Pitch × ℚ)))
    (save : Except Unit Unit) :
    (music = .loaded false → (∀ e, fft = .error e →
      new_frame st flag music fft save = .error .fftUnwrap)) ∧
    (¬(music = .loaded false ∧ fft = .error ()) →
      st.snapshot_request ≠ none → save = .error () →
      new_frame st flag music fft save = .error .saveUnwrap) ∧
    (∀ st' out, new_frame st flag music fft save = .ok (st', out) →
      st'.snapshot_request = none) := by
  refine ⟨?_, ?_, ?_⟩
  · rintro rfl e rfl
    simp [new_frame]
  · intro hnot hpend hsave
    have hfin : ∀ (st1 : Synesthetizer) (img : Image),
        st1.snapshot_request = st.snapshot_request →
        newFrameFinish st1 img save = .error .saveUnwrap := by
      intro st1 img heq
      unfold newFrameFinish
      rw [persistOverlay_snapshot_request, heq]
      cases hreq : st.snapshot_request with
      | none => exact absurd hreq hpend
      | some p => subst hsave; rfl
    cases music with
    | notLoaded =>
      simp only [new_frame]
      exact hfin _ _ (by simp [syncOverlay, clear_overlay]; split_ifs <;> rfl)
    | loaded stopped =>
      cases stopped with
      | true =>
        simp only [new_frame]
        exact hfin _ _ (by simp [syncOverlay, clear_overlay]; split_ifs <;> rfl)
      | false =>
        cases fft with
        | error e =>
          exact absurd ⟨rfl, rfl⟩ hnot
        | ok bins =>
          simp only [new_frame]
          exact hfin _ _ (by simp [syncOverlay, clear_overlay]; split_ifs <;> rfl)
  · intro st' out h
    have hfin : ∀ (st1 : Synesthetizer) (img : Image),
        newFrameFinish st1 img save = .ok (st', out) →
        st'.snapshot_request = none := by
      intro st1 img hk
      unfold newFrameFinish at hk
      split at hk
      · split at hk
        · exact absurd hk (by simp)
        · simp only [Except.ok.injEq, Prod.mk.injEq] at hk
          obtain ⟨h1, h2⟩ := hk
          subst h1
          rfl
      next hnone =>
        simp only [Except.ok.injEq, Prod.mk.injEq] at hk
        obtain ⟨h1, h2⟩ := hk
        subst h1
        exact hnone
    cases music with
    | notLoaded =>
      simp only [new_frame] at h
      exact hfin _ _ h
    | loaded stopped =>
      cases stopped with
      | true =>
        simp only [new_frame] at h
        exact hfin _ _ h
      | false =>
        cases fft with
        | error e => simp [new_frame] at h
        | ok bins =>
          simp only [new_frame] at h
          exact hfin _ _ h

/-- Witness for `c4_amended_unwrap_behavior`: a stopped track, a pending
snapshot request and a failing write make the tick panic with
`PanicKind.saveUnwrap`. -/
theorem c4_amended_unwrap_behavior_witness :
    new_frame ⟨0, [], Image.blank, false, some 5⟩ false (.loaded true)
        (.ok []) (.error ()) = .error .saveUnwrap := by
  exact (c4_amended_unwrap_behavior ⟨0, [], Image.blank, false, some 5⟩ false
    (.loaded true) (.ok []) (.error ())).2.1 (by simp) (by simp) rfl

/-! ## Glyph geometry (`note.rs::Note::{height, width, paint}`)

C10 quantifies over every `f32` peak amplitude, including non-finite values,
so here amplitudes carry the `f32` special values explicitly: a finite
rational, NaN, or an infinity.  `(expr).ceil() as u32` follows Rust's
float-to-int conversion (truncate toward zero, saturate at the integer type's
bounds, NaN to 0), and `+ 3` is the release-profile wrapping `u32` addition
(in a debug build the saturated case panics on overflow instead — either way
the claimed lower bound fails there). -/

/-- An `f32` value: finite (exact rational), NaN, or an infinity. -/
inductive F32 where
  | fin (q : ℚ)
  | nan
  | inf
  | neginf
  deriving DecidableEq, Repr

/-- `amplitude * 100.` (finite multiplication is exact here; specials keep
their class — `inf * 100 = inf`, `nan * 100 = nan`). -/
def F32.mul100 : F32 → F32
  | .fin q => .fin (q * 100)
  | .nan => .nan
  | .inf => .inf
  | .neginf => .neginf

/-- `f32::ceil`. -/
def F32.ceil32 : F32 → F32
  | .fin q => .fin ((Int.ceil q : ℤ) : ℚ)
  | .nan => .nan
  | .inf => .inf
  | .neginf => .neginf

/-- `u32::MAX`. -/
def U32_MAX : ℕ := 2 ^ 32 - 1

/-- Rust `as u32` on an `f32`: truncate toward zero and saturate at
`[0, u32::MAX]`; NaN becomes 0. -/
def F32.toU32 : F32 → ℕ
  | .fin q => min (Int.toNat (Int.floor q)) U32_MAX
  | .nan => 0
  | .inf => U32_MAX
  | .neginf => 0

/-- `Note::height`: `(self.amplitude() * 100.).ceil() as u32 + 3`, the `+ 3`
wrapping modulo `2^32` (release profile). -/
def height32 (amp : F32) : ℕ :=
  (F32.toU32 (F32.ceil32 (F32.mul100 amp)) + 3) % 2 ^ 32

/-- `Note::width`: `(2500 / self.height()) * 2` in `u32` arithmetic. -/
def width32 (amp : F32) : ℕ :=
  2500 / height32 amp * 2

/-- C10, counterexample: the claim says `height()` is at least 3 for every
`f32` amplitude.  At amplitude `10^9` (or `+∞`) the cast saturates at
`u32::MAX` and the `+ 3` wraps, so `height()` is 2 (and a debug build panics
on the add overflow) — less than 3. -/
theorem c10_height_wraps_below_three :
    height32 (F32.fin (10 ^ 9)) = 2 ∧ height32 (F32.fin (10 ^ 9)) < 3 := by
  constructor <;>
    norm_num [height32, F32.mul100, F32.ceil32, F32.toU32, U32_MAX]

/-- C10, amended: whenever the cast value
`c = ((amplitude * 100).ceil() as u32)` does not make `c + 3` overflow —
in particular for every zero, negative or NaN amplitude, where the cast
saturates at 0 and `height()` is exactly 3 — `height() = c + 3 ≥ 3`; when the
cast saturates at `u32::MAX` (amplitude ⪆ 4.3·10⁷, or `+∞`), the wrapping add
makes `height() = 2`.  In both regimes — and every actual `f32` lands in one,
since no `f32` yields `c` within 2 of `u32::MAX` — `height()` is nonzero, so
`2500 / height()` in `Note::width` never divides by zero, the `height == 0`
early-return in `Note::paint` is unreachable, and the glyph is degenerate
(`width() == 0`) exactly when `height()` exceeds 2500. -/
theorem c10_amended_height_bounds (a : F32) :
    (F32.toU32 (F32.ceil32 (F32.mul100 a)) + 3 < 2 ^ 32 →
      height32 a = F32.toU32 (F32.ceil32 (F32.mul100 a)) + 3 ∧ 3 ≤ height32 a) ∧
    (F32.toU32 (F32.ceil32 (F32.mul100 a)) = U32_MAX → height32 a = 2) ∧
    (a = F32.nan → height32 a = 3) ∧
    (∀ q : ℚ, a = F32.fin q → q ≤ 0 → height32 a = 3) ∧
    (F32.toU32 (F32.ceil32 (F32.mul100 a)) + 3 < 2 ^ 32 ∨
        F32.toU32 (F32.ceil32 (F32.mul100 a)) = U32_MAX →
      height32 a ≠ 0 ∧ (width32 a = 0 ↔ 2500 < height32 a)) := by
  refine ⟨?_, ?_, ?_, ?_, ?_⟩
  · intro hlt
    unfold height32
    rw [Nat.mod_eq_of_lt hlt]
    omega
  · intro hc
    unfold height32
    rw [hc]
    norm_num [U32_MAX]
  · rintro rfl
    norm_num [height32, F32.mul100, F32.ceil32, F32.toU32]
  · rintro q rfl hq
    have hceil : Int.ceil (q * 100) ≤ 0 := by
      rw [Int.ceil_le]
      push_cast
      nlinarith
    have hfloor : Int.floor ((Int.ceil (q * 100) : ℤ) : ℚ) = Int.ceil (q * 100) :=
      Int.floor_intCast _
    simp only [height32, F32.mul100, F32.ceil32, F32.toU32, hfloor]
    rw [Int.toNat_of_nonpos hceil]
    norm_num
  · intro hcase
    rcases hcase with hlt | hc
    · have hht : height32 a = F32.toU32 (F32.ceil32 (F32.mul100 a)) + 3 := by
        unfold height32
        exact Nat.mod_eq_of_lt hlt
      constructor
      · omega
      · unfold width32
        rw [hht]
        constructor
        · intro hw
          have h2500 : 2500 / (F32.toU32 (F32.ceil32 (F32.mul100 a)) + 3) = 0 := by
            omega
          have := (Nat.div_eq_zero_iff (by omega)).mp h2500
          omega
        · intro hgt
          have : 2500 / (F32.toU32 (F32.ceil32 (F32.mul100 a)) + 3) = 0 :=
            Nat.div_eq_of_lt (by omega)
          omega
    · have hht : height32 a = 2 := by
        unfold height32
        rw [hc]
        norm_num [U32_MAX]
      rw [hht]
      unfold width32
      rw [hht]
      norm_num

/-- Witness for `c10_amended_height_bounds` at amplitude `1/2`: the cast value
is 50, well below the overflow zone, and `height()` is `53 ≥ 3`. -/
theorem c10_amended_height_bounds_witness :
    3 ≤ height32 (F32.fin (1/2)) :=
  ((c10_amended_height_bounds (F32.fin (1/2))).1
    (by
      have h50 : Int.toNat 50 = 50 := rfl
      norm_num [F32.mul100, F32.ceil32, F32.toU32, U32_MAX, h50])).2

end Synesthetic
